import Mathlib

/-!
Shallow embedding of the aStockPe repository's time-series alignment and
indicator-computation core, together with theorems checking the frozen claims
about it.

Modelling conventions:
- dates are natural numbers (day ordinals), values are rationals;
- a pandas cell is `Option ℚ`, with `none` playing the role of NaN / undefined;
- a pandas Series/column is a `List` of cells indexed by position;
- a date-indexed frame column is produced by mapping over the shared index;
- the rolling standard deviation is real-valued (`Real.sqrt` of the rational
  sample variance), mirroring the exact mathematical value the code computes.
-/

namespace AStockPe

/-- A cell of a pandas column: `none` models NaN / undefined. -/
abbrev Cell := Option ℚ

/-! ### Rolling statistics (国债利差均线.py, lines 57-66)

The source defines `window = 5 * 252` and computes
`rolling(window=window, min_periods=1).mean()` / `.std()` plus the four
`mean ± k·std` band columns. -/

/-- The rolling window length of the source: `window = 5 * 252` (line 57). -/
def window : ℕ := 5 * 252

/-- The trailing observation window pandas `rolling` uses at position `i`:
the last `w` entries of the first `i + 1` entries. -/
def trailingWindow (w : ℕ) (xs : List ℚ) (i : ℕ) : List ℚ :=
  ((xs.take (i + 1)).reverse.take w).reverse

/-- Arithmetic mean of a window, as pandas computes it. -/
def listMean (l : List ℚ) : ℚ := l.sum / (l.length : ℚ)

/-- Sample variance with `ddof = 1`; undefined (NaN) for fewer than two
samples, which is why pandas' rolling std is NaN on a one-element window. -/
def sampleVar (l : List ℚ) : Option ℚ :=
  if 2 ≤ l.length then
    some ((l.map (fun x => (x - listMean l) ^ 2)).sum / ((l.length : ℚ) - 1))
  else none

/-- Sample standard deviation with `ddof = 1`, the square root of `sampleVar`. -/
noncomputable def sampleStd (l : List ℚ) : Option ℝ :=
  (sampleVar l).map (fun q => Real.sqrt (q : ℝ))

/-- Embedding of `Series.rolling(window=w, min_periods=minp).mean()`. -/
def rollingMeanCol (w minp : ℕ) (xs : List ℚ) : List Cell :=
  (List.range xs.length).map (fun i =>
    if minp ≤ (trailingWindow w xs i).length then some (listMean (trailingWindow w xs i))
    else none)

/-- Embedding of `Series.rolling(window=w, min_periods=minp).std()` (ddof = 1). -/
noncomputable def rollingStdCol (w minp : ℕ) (xs : List ℚ) : List (Option ℝ) :=
  (List.range xs.length).map (fun i =>
    if minp ≤ (trailingWindow w xs i).length then sampleStd (trailingWindow w xs i)
    else none)

/-- The `5年均线` column (line 61). -/
def fiveYearMACol (xs : List ℚ) : List Cell := rollingMeanCol window 1 xs

/-- The `5年标准差` column (line 62). -/
noncomputable def fiveYearStdCol (xs : List ℚ) : List (Option ℝ) := rollingStdCol window 1 xs

/-- Elementwise `mean + k * std` with NaN propagation (pandas Series arithmetic). -/
def bandAddCell (k : ℝ) : Cell → Option ℝ → Option ℝ
  | some m, some s => some ((m : ℝ) + k * s)
  | _, _ => none

/-- Elementwise `mean - k * std` with NaN propagation (pandas Series arithmetic). -/
def bandSubCell (k : ℝ) : Cell → Option ℝ → Option ℝ
  | some m, some s => some ((m : ℝ) - k * s)
  | _, _ => none

/-- The `+1 STD` column (line 63). -/
noncomputable def plusOneStdCol (xs : List ℚ) : List (Option ℝ) :=
  List.zipWith (bandAddCell 1) (fiveYearMACol xs) (fiveYearStdCol xs)

/-- The `-1 STD` column (line 64). -/
noncomputable def minusOneStdCol (xs : List ℚ) : List (Option ℝ) :=
  List.zipWith (bandSubCell 1) (fiveYearMACol xs) (fiveYearStdCol xs)

/-- The `+2 STD` column (line 65). -/
noncomputable def plusTwoStdCol (xs : List ℚ) : List (Option ℝ) :=
  List.zipWith (bandAddCell 2) (fiveYearMACol xs) (fiveYearStdCol xs)

/-- The `-2 STD` column (line 66). -/
noncomputable def minusTwoStdCol (xs : List ℚ) : List (Option ℝ) :=
  List.zipWith (bandSubCell 2) (fiveYearMACol xs) (fiveYearStdCol xs)

/-- Spec-side window formula: the slice `v[max(0, i-w+1) .. i]`, written with
truncated subtraction. -/
def specSlice (w : ℕ) (xs : List ℚ) (i : ℕ) : List ℚ :=
  (xs.take (i + 1)).drop (i + 1 - w)

/-! ### Calendar alignment and fills (AKShareSummer.py, lines 233-246, 302-304)

`main_df.sort_index()` puts the union index in ascending order,
`dropna(axis=1, how="all")` removes entirely empty columns, and
`ffill` / `bfill` close the remaining gaps column by column. -/

/-- Forward-fill a column, threading the most recent defined value as carry.
Embeds `ffill` / `fillna(method="ffill")` for one column. -/
def ffillCol : List Cell → Option ℚ → List Cell
  | [], _ => []
  | none :: l, c => c :: ffillCol l c
  | some v :: l, _ => some v :: ffillCol l (some v)

/-- `Series.ffill`: each undefined entry takes the most recent prior defined value. -/
def ffill (col : List Cell) : List Cell := ffillCol col none

/-- `Series.bfill`: each undefined entry takes the next defined value. -/
def bfill (col : List Cell) : List Cell := (ffillCol col.reverse none).reverse

/-- Forward-fill then back-fill, as applied by lines 244-245 and again by
lines 302-304 of AKShareSummer.py. -/
def alignFill (col : List Cell) : List Cell := bfill (ffill col)

/-- Most recent defined observation of a cell list, with fallback carry. -/
def lastObs : List Cell → Option ℚ → Option ℚ
  | [], c => c
  | none :: l, c => lastObs l c
  | some v :: l, _ => lastObs l (some v)

/-- Union date index of all raw series, ascending (`sort_index()`, line 236). -/
def unionIndex (raw : List (List (ℕ × ℚ))) : List ℕ :=
  ((raw.foldr (fun s acc => s.map Prod.fst ++ acc) []).dedup).insertionSort (· ≤ ·)

/-- Project one raw series onto the shared index; dates the series did not
observe become undefined cells. -/
def projectCol (idx : List ℕ) (s : List (ℕ × ℚ)) : List Cell :=
  idx.map (fun d => (s.find? (fun p => p.1 == d)).map Prod.snd)

/-- Keep only columns defined somewhere (`dropna(axis=1, how="all")`, line 239). -/
def dropEmptyCols (cols : List (List Cell)) : List (List Cell) :=
  cols.filter (fun c => c.any (fun x => x.isSome))

/-! ### Auxiliary series reconciliation (AKShareSummer.py, lines 256-304)

The China 10Y yield series is clipped to the panel's date range, resampled
daily with forward fill if the clip is empty, reindexed onto the panel index
with forward fill, or replaced by the constant default 2.5 when nothing
overlaps; lines 302-304 then run `fillna(ffill)` and `fillna(bfill)` over the
whole frame, the auxiliary column included. -/

/-- Value that `reindex(index, method="ffill")` assigns at target date `d`:
the most recent observation at a source date ≤ d. -/
def reindexFfillVal (aux : List (ℕ × ℚ)) (d : ℕ) : Option ℚ :=
  ((aux.filter (fun p => decide (p.1 ≤ d))).getLast?).map Prod.snd

/-- The auxiliary column produced by line 287: the series reindexed onto the
panel's exact index with forward fill. -/
def reindexCol (idx : List ℕ) (aux : List (ℕ × ℚ)) : List Cell :=
  idx.map (fun d => reindexFfillVal aux d)

/-- Restriction of a series to the closed date interval `[lo, hi]`
(lines 268-271). -/
def clipTo (aux : List (ℕ × ℚ)) (lo hi : ℕ) : List (ℕ × ℚ) :=
  aux.filter (fun p => decide (lo ≤ p.1) && decide (p.1 ≤ hi))

/-- Daily resample with forward fill (line 276): one point per day from the
first to the last observed date, each carrying the most recent observation. -/
def resampleDailyFfill (aux : List (ℕ × ℚ)) : List (ℕ × ℚ) :=
  match aux with
  | [] => []
  | a :: t =>
      (List.range (((a :: t).getLastD a).1 - a.1 + 1)).map
        (fun k => (a.1 + k, (reindexFfillVal (a :: t) (a.1 + k)).getD 0))

/-- The documented fallback 10Y yield, 2.5 (lines 140, 295, 300). -/
def defaultYield : ℚ := 5 / 2

/-- The fallback chain of lines 267-300: clip, then resample-and-reclip, then
constant default; the Boolean records whether the warning branch was taken. -/
def reconcileAux (idx : List ℕ) (aux : List (ℕ × ℚ)) : List Cell × Bool :=
  match idx.min?, idx.max? with
  | some lo, some hi =>
      if (clipTo aux lo hi).isEmpty then
        if (clipTo (resampleDailyFfill aux) lo hi).isEmpty then
          (idx.map (fun _ => some defaultYield), true)
        else (reindexCol idx (clipTo (resampleDailyFfill aux) lo hi), false)
      else (reindexCol idx (clipTo aux lo hi), false)
  | _, _ => ([], true)

/-! ### Basis column (AKShareSummer.py, lines 249-254) -/

/-- First column with the given name, pandas `df[name]` on an ordered frame. -/
def lookupCol (panel : List (String × List Cell)) (name : String) : Option (List Cell) :=
  (panel.find? (fun col => col.1 == name)).map Prod.snd

/-- Elementwise subtraction of two cells with NaN propagation. -/
def cellSub : Cell → Cell → Cell
  | some a, some b => some (a - b)
  | _, _ => none

/-- Lines 250-254: add `GOLD_basis_spot_vs_near = spot − future` when both
columns exist, otherwise leave the panel unchanged and record a warning. -/
def addBasis (panel : List (String × List Cell)) : List (String × List Cell) × Bool :=
  match lookupCol panel "GOLD_spot_price", lookupCol panel "GOLD_near_month_future" with
  | some s, some f => (panel ++ [("GOLD_basis_spot_vs_near", List.zipWith cellSub s f)], false)
  | _, _ => (panel, true)

/-! ### Snapshot extraction (AKShareSummer.py, lines 328-369) -/

/-- A row of an auxiliary indicator table: named numeric values. -/
abbrev Row := List (String × ℚ)

/-- A date-indexed auxiliary indicator table, in file row order. -/
abbrev Table := List (ℕ × Row)

/-- Column access on a row, `row[name] if name in row else None`. -/
def rowLookup (row : Row) (name : String) : Option ℚ :=
  (row.find? (fun p => p.1 == name)).map Prod.snd

/-- The `buffett_indicator` snapshot group (lines 345-352). -/
structure BuffettGroup where
  date : ℕ
  indicator_value : Option ℚ
  total_market_cap : Option ℚ
  gdp : Option ℚ
  total_percentile : Option ℚ
  close_price : Option ℚ
  deriving DecidableEq

/-- Fields of the buffett group extracted from one row, each an explicit
null when its source column is absent. -/
def mkBuffettGroup (d : ℕ) (row : Row) : BuffettGroup where
  date := d
  indicator_value := rowLookup row "巴菲特指标"
  total_market_cap := rowLookup row "总市值"
  gdp := rowLookup row "GDP"
  total_percentile := rowLookup row "总历史分位数"
  close_price := rowLookup row "收盘价"

/-- Lines 343-352: the group is built from `iloc[-1]` / `index[-1]`, the
physically last row of the table; an empty or missing table yields no group. -/
def extractBuffett (t : Table) : Option BuffettGroup :=
  t.getLast?.map (fun p => mkBuffettGroup p.1 p.2)

/-- The `equity_bond_spread` snapshot group (lines 355-367). -/
structure SpreadGroup where
  date : ℕ
  spread_value : Option ℚ
  five_year_ma : Option ℚ
  five_year_std : Option ℚ
  plus_1_std : Option ℚ
  minus_1_std : Option ℚ
  plus_2_std : Option ℚ
  minus_2_std : Option ℚ
  csi300_index : Option ℚ
  deriving DecidableEq

/-- Fields of the spread group extracted from one row. -/
def mkSpreadGroup (d : ℕ) (row : Row) : SpreadGroup where
  date := d
  spread_value := rowLookup row "股债利差"
  five_year_ma := rowLookup row "5年均线"
  five_year_std := rowLookup row "5年标准差"
  plus_1_std := rowLookup row "+1 STD"
  minus_1_std := rowLookup row "-1 STD"
  plus_2_std := rowLookup row "+2 STD"
  minus_2_std := rowLookup row "-2 STD"
  csi300_index := rowLookup row "沪深300指数"

/-- Lines 355-367: the spread group, from the physically last row. -/
def extractSpread (t : Table) : Option SpreadGroup :=
  t.getLast?.map (fun p => mkSpreadGroup p.1 p.2)

/-- The dates of a table's rows in row order. -/
def tableDates (t : Table) : List ℕ := t.map Prod.fst

/-! ### Pipeline (AKShareSummer.py, `download_gold_training_data`,
`prepare_market_data_for_analysis`, `run_market_analysis`) -/

/-- Python's `str.endswith`. -/
def strEndsWith (s suff : String) : Bool := List.isSuffixOf suff.data s.data

/-- The Snapshot (lines 332-369): `None` when the panel is empty, otherwise
the last row of the panel plus the optional auxiliary groups. -/
structure Snapshot where
  latest_date : ℕ
  latest_values : List (String × Cell)
  buffett_indicator : Option BuffettGroup
  equity_bond_spread : Option SpreadGroup
  deriving DecidableEq

/-- `prepare_market_data_for_analysis`: last-row projection of the panel and
of each available auxiliary table. -/
def prepareMarketData (panel : List (String × List Cell)) (idx : List ℕ)
    (bt sp : Option Table) : Option Snapshot :=
  match idx.getLast? with
  | none => none
  | some d =>
      some { latest_date := d
             latest_values :=
               (panel.map (fun col => (col.1, (col.2.getLast?).join))).filter
                 (fun kv => !(strEndsWith kv.1 "_pct_change"))
             buffett_indicator := bt.bind extractBuffett
             equity_bond_spread := sp.bind extractSpread }

/-- The outcome of `download_gold_training_data`: the final columns (after the
second fill pass of lines 302-304), the union index, and the two non-fatal
warning flags. -/
structure PipelineOutput where
  columns : List (String × List Cell)
  index : List ℕ
  basisWarn : Bool
  auxWarn : Bool
  deriving DecidableEq

/-- `download_gold_training_data`: abort with `None` when the union of raw
series is empty (line 221-223), otherwise align, drop empty columns, fill,
add the basis, reconcile the auxiliary yield, and fill once more. -/
def downloadGoldTrainingData (raw : List (String × List (ℕ × ℚ))) (aux : List (ℕ × ℚ)) :
    Option PipelineOutput :=
  if (unionIndex (raw.map Prod.snd)).isEmpty then none
  else
    let idx := unionIndex (raw.map Prod.snd)
    let kept := (raw.map (fun s => (s.1, projectCol idx s.2))).filter
      (fun col => col.2.any (fun x => x.isSome))
    let filled := kept.map (fun col => (col.1, alignFill col.2))
    let withBasis := addBasis filled
    let auxRes := reconcileAux idx aux
    let final := (withBasis.1 ++ [("China_10Y_Treasury_Yield", auxRes.1)]).map
      (fun col => (col.1, alignFill col.2))
    some { columns := final, index := idx, basisWarn := withBasis.2, auxWarn := auxRes.2 }

/-- `run_market_analysis`: download, then build the Snapshot; a `None` from
the download aborts the run before any output is produced. -/
def runMarketAnalysis (raw : List (String × List (ℕ × ℚ))) (aux : List (ℕ × ℚ))
    (bt sp : Option Table) : Option (PipelineOutput × Snapshot) :=
  match downloadGoldTrainingData raw aux with
  | none => none
  | some out =>
      match prepareMarketData out.columns out.index bt sp with
      | none => none
      | some snap => some (out, snap)

/-! ### Theorems -/

theorem reverse_take_reverse {α : Type} (l : List α) (w : ℕ) :
    (l.reverse.take w).reverse = l.drop (l.length - w) := by
  rcases le_or_lt l.length w with h | h
  · rw [List.take_of_length_le (by simpa using h), List.reverse_reverse,
      Nat.sub_eq_zero_of_le h, List.drop_zero]
  · have hw : w ≤ l.length := le_of_lt h
    conv_lhs => rw [← List.take_append_drop (l.length - w) l]
    rw [List.reverse_append,
      List.take_left' (by simp [Nat.sub_sub_self hw]), List.reverse_reverse]

theorem trailingWindow_eq_specSlice (w : ℕ) (xs : List ℚ) (i : ℕ) (h : i < xs.length) :
    trailingWindow w xs i = specSlice w xs i := by
  unfold trailingWindow specSlice
  rw [reverse_take_reverse, List.length_take, Nat.min_eq_left (by omega)]

theorem specSlice_length (w : ℕ) (xs : List ℚ) (i : ℕ) (h : i < xs.length) :
    (specSlice w xs i).length = min w (i + 1) := by
  unfold specSlice
  rw [List.length_drop, List.length_take]
  omega

theorem rollingMeanCol_getElem? (w minp : ℕ) (xs : List ℚ) (i : ℕ) (h : i < xs.length) :
    (rollingMeanCol w minp xs)[i]? =
      some (if minp ≤ (trailingWindow w xs i).length
            then some (listMean (trailingWindow w xs i)) else none) := by
  unfold rollingMeanCol
  rw [List.getElem?_map, List.getElem?_range h, Option.map_some']

theorem rollingStdCol_getElem? (w minp : ℕ) (xs : List ℚ) (i : ℕ) (h : i < xs.length) :
    (rollingStdCol w minp xs)[i]? =
      some (if minp ≤ (trailingWindow w xs i).length
            then sampleStd (trailingWindow w xs i) else none) := by
  unfold rollingStdCol
  rw [List.getElem?_map, List.getElem?_range h, Option.map_some']

/-- C1: with the source's window `W = 5 * 252 = 1260` and minimum sample count
1, the rolling mean at index `i` is the arithmetic mean of the slice
`v[max(0, i-W+1) .. i]`, which consists of the most recent `min(W, i+1)`
observations; and with `W = 3` the series `[1, 2, 3, 4, 5]` yields the means
`[1, 1.5, 2, 3, 4]`. -/
theorem C1_rolling_mean :
    (∀ (xs : List ℚ) (i : ℕ), i < xs.length →
      (rollingMeanCol window 1 xs)[i]? = some (some (listMean (specSlice window xs i))) ∧
      (specSlice window xs i).length = min window (i + 1)) ∧
    rollingMeanCol 3 1 [1, 2, 3, 4, 5] = [some 1, some (3 / 2), some 2, some 3, some 4] := by
  constructor
  · intro xs i h
    refine ⟨?_, specSlice_length window xs i h⟩
    rw [rollingMeanCol_getElem? window 1 xs i h, trailingWindow_eq_specSlice window xs i h,
      if_pos]
    rw [specSlice_length window xs i h]
    unfold window
    omega
  · norm_num [rollingMeanCol, trailingWindow, listMean, List.range_succ]

/-- Witness for C1 at the concrete series `[3, 5, 8]` and index 1. -/
theorem C1_rolling_mean_witness :
    1 < ([3, 5, 8] : List ℚ).length ∧
    (rollingMeanCol window 1 [3, 5, 8])[1]? = some (some (listMean (specSlice window [3, 5, 8] 1))) :=
  ⟨by decide, (C1_rolling_mean.1 [3, 5, 8] 1 (by decide)).1⟩

theorem trailingWindow_head (w : ℕ) (hw : 1 ≤ w) (x : ℚ) (t : List ℚ) :
    trailingWindow w (x :: t) 0 = [x] := by
  rw [trailingWindow_eq_specSlice w (x :: t) 0 (by simp)]
  unfold specSlice
  rw [Nat.sub_eq_zero_of_le hw]
  simp

/-- C10: on any non-empty series the rolling std at the first index is
undefined (the sample std of a single observation has no value even though
`min_periods = 1`), hence all four band columns are null at the first date,
while the rolling mean there is defined (and equals the first observation). -/
theorem C10_first_row_bands (x : ℚ) (t : List ℚ) :
    (fiveYearMACol (x :: t))[0]? = some (some x) ∧
    (fiveYearStdCol (x :: t))[0]? = some none ∧
    (plusOneStdCol (x :: t))[0]? = some none ∧
    (minusOneStdCol (x :: t))[0]? = some none ∧
    (plusTwoStdCol (x :: t))[0]? = some none ∧
    (minusTwoStdCol (x :: t))[0]? = some none := by
  have hw : trailingWindow window (x :: t) 0 = [x] :=
    trailingWindow_head window (by unfold window; omega) x t
  have hmean : (fiveYearMACol (x :: t))[0]? = some (some x) := by
    rw [fiveYearMACol, rollingMeanCol_getElem? window 1 (x :: t) 0 (by simp), hw]
    simp [listMean]
  have hstd : (fiveYearStdCol (x :: t))[0]? = some none := by
    rw [fiveYearStdCol, rollingStdCol_getElem? window 1 (x :: t) 0 (by simp), hw]
    simp [sampleStd, sampleVar]
  refine ⟨hmean, hstd, ?_, ?_, ?_, ?_⟩
  · unfold plusOneStdCol
    rw [List.getElem?_zipWith, hmean, hstd]
    rfl
  · unfold minusOneStdCol
    rw [List.getElem?_zipWith, hmean, hstd]
    rfl
  · unfold plusTwoStdCol
    rw [List.getElem?_zipWith, hmean, hstd]
    rfl
  · unfold minusTwoStdCol
    rw [List.getElem?_zipWith, hmean, hstd]
    rfl

theorem trailingWindow_append (w : ℕ) (xs : List ℚ) (y : ℚ) (i : ℕ) (h : i < xs.length) :
    trailingWindow w (xs ++ [y]) i = trailingWindow w xs i := by
  unfold trailingWindow
  rw [List.take_append_of_le_length (by omega)]

theorem rollingMeanCol_append (w minp : ℕ) (xs : List ℚ) (y : ℚ) (i : ℕ) (h : i < xs.length) :
    (rollingMeanCol w minp (xs ++ [y]))[i]? = (rollingMeanCol w minp xs)[i]? := by
  rw [rollingMeanCol_getElem? w minp (xs ++ [y]) i (by simp only [List.length_append]; omega),
    rollingMeanCol_getElem? w minp xs i h, trailingWindow_append w xs y i h]

theorem rollingStdCol_append (w minp : ℕ) (xs : List ℚ) (y : ℚ) (i : ℕ) (h : i < xs.length) :
    (rollingStdCol w minp (xs ++ [y]))[i]? = (rollingStdCol w minp xs)[i]? := by
  rw [rollingStdCol_getElem? w minp (xs ++ [y]) i (by simp only [List.length_append]; omega),
    rollingStdCol_getElem? w minp xs i h, trailingWindow_append w xs y i h]

/-- C9: the four band columns equal `rolling_mean ± k·rolling_std` elementwise
for k ∈ {1, 2} (with NaN propagation), and extending the series by one more
observation leaves every band value at an index of the original series
unchanged — no retroactive change. -/
theorem C9_sigma_bands (xs : List ℚ) (y : ℚ) (i : ℕ) (h : i < xs.length) :
    ((plusOneStdCol xs)[i]? =
        (match (fiveYearMACol xs)[i]?, (fiveYearStdCol xs)[i]? with
          | some m, some s => some (bandAddCell 1 m s) | _, _ => none) ∧
      (minusOneStdCol xs)[i]? =
        (match (fiveYearMACol xs)[i]?, (fiveYearStdCol xs)[i]? with
          | some m, some s => some (bandSubCell 1 m s) | _, _ => none) ∧
      (plusTwoStdCol xs)[i]? =
        (match (fiveYearMACol xs)[i]?, (fiveYearStdCol xs)[i]? with
          | some m, some s => some (bandAddCell 2 m s) | _, _ => none) ∧
      (minusTwoStdCol xs)[i]? =
        (match (fiveYearMACol xs)[i]?, (fiveYearStdCol xs)[i]? with
          | some m, some s => some (bandSubCell 2 m s) | _, _ => none)) ∧
    ((plusOneStdCol (xs ++ [y]))[i]? = (plusOneStdCol xs)[i]? ∧
      (minusOneStdCol (xs ++ [y]))[i]? = (minusOneStdCol xs)[i]? ∧
      (plusTwoStdCol (xs ++ [y]))[i]? = (plusTwoStdCol xs)[i]? ∧
      (minusTwoStdCol (xs ++ [y]))[i]? = (minusTwoStdCol xs)[i]?) := by
  have hm := rollingMeanCol_append window 1 xs y i h
  have hs := rollingStdCol_append window 1 xs y i h
  constructor
  · refine ⟨?_, ?_, ?_, ?_⟩
    · unfold plusOneStdCol
      rw [List.getElem?_zipWith]
      rcases (fiveYearMACol xs)[i]? with _ | m <;> rcases (fiveYearStdCol xs)[i]? with _ | s <;> rfl
    · unfold minusOneStdCol
      rw [List.getElem?_zipWith]
      rcases (fiveYearMACol xs)[i]? with _ | m <;> rcases (fiveYearStdCol xs)[i]? with _ | s <;> rfl
    · unfold plusTwoStdCol
      rw [List.getElem?_zipWith]
      rcases (fiveYearMACol xs)[i]? with _ | m <;> rcases (fiveYearStdCol xs)[i]? with _ | s <;> rfl
    · unfold minusTwoStdCol
      rw [List.getElem?_zipWith]
      rcases (fiveYearMACol xs)[i]? with _ | m <;> rcases (fiveYearStdCol xs)[i]? with _ | s <;> rfl
  · refine ⟨?_, ?_, ?_, ?_⟩
    · unfold plusOneStdCol fiveYearMACol fiveYearStdCol
      rw [List.getElem?_zipWith, List.getElem?_zipWith, hm, hs]
    · unfold minusOneStdCol fiveYearMACol fiveYearStdCol
      rw [List.getElem?_zipWith, List.getElem?_zipWith, hm, hs]
    · unfold plusTwoStdCol fiveYearMACol fiveYearStdCol
      rw [List.getElem?_zipWith, List.getElem?_zipWith, hm, hs]
    · unfold minusTwoStdCol fiveYearMACol fiveYearStdCol
      rw [List.getElem?_zipWith, List.getElem?_zipWith, hm, hs]

/-- Witness for C9 at the concrete series `[2, 4, 6]` extended by `8`. -/
theorem C9_sigma_bands_witness :
    1 < ([2, 4, 6] : List ℚ).length ∧
    (plusOneStdCol ([2, 4, 6] ++ [8]))[1]? = (plusOneStdCol [2, 4, 6])[1]? :=
  ⟨by decide, (C9_sigma_bands [2, 4, 6] 8 1 (by decide)).2.1⟩

theorem length_ffillCol (l : List Cell) (c : Option ℚ) : (ffillCol l c).length = l.length := by
  induction l generalizing c with
  | nil => rfl
  | cons x t ih => cases x <;> simp [ffillCol, ih]

theorem length_ffill (l : List Cell) : (ffill l).length = l.length := length_ffillCol l none

theorem length_bfill (l : List Cell) : (bfill l).length = l.length := by
  simp [bfill, length_ffillCol]

theorem length_alignFill (l : List Cell) : (alignFill l).length = l.length := by
  rw [alignFill, length_bfill, length_ffill]

theorem getElem?_ffillCol (l : List Cell) (c : Option ℚ) (i : ℕ) (h : i < l.length) :
    (ffillCol l c)[i]? = some (lastObs (l.take (i + 1)) c) := by
  induction l generalizing c i with
  | nil => simp at h
  | cons x t ih =>
    cases x with
    | none =>
      cases i with
      | zero => simp [ffillCol, lastObs]
      | succ j =>
        rw [ffillCol, List.getElem?_cons_succ, List.take_succ_cons, lastObs]
        exact ih c j (by simpa using h)
    | some v =>
      cases i with
      | zero => simp [ffillCol, lastObs]
      | succ j =>
        rw [ffillCol, List.getElem?_cons_succ, List.take_succ_cons, lastObs]
        exact ih (some v) j (by simpa using h)

theorem lastObs_append (l₁ l₂ : List Cell) (c : Option ℚ) :
    lastObs (l₁ ++ l₂) c = lastObs l₂ (lastObs l₁ c) := by
  induction l₁ generalizing c with
  | nil => rfl
  | cons x t ih => cases x <;> simp [lastObs, ih]

theorem lastObs_carry_isSome (l : List Cell) (w : ℚ) : (lastObs l (some w)).isSome := by
  induction l generalizing w with
  | nil => rfl
  | cons x t ih =>
    cases x with
    | none => exact ih w
    | some v => exact ih v

theorem lastObs_isSome_of_mem (l : List Cell) (c : Option ℚ) (v : ℚ) (hv : some v ∈ l) :
    (lastObs l c).isSome := by
  induction l generalizing c with
  | nil => simp at hv
  | cons x t ih =>
    rcases List.mem_cons.mp hv with hx | ht
    · cases x with
      | none => exact absurd hx (by simp)
      | some u =>
        rw [lastObs]
        exact lastObs_carry_isSome t u
    · cases x with
      | none => exact ih c ht
      | some u =>
        rw [lastObs]
        exact lastObs_carry_isSome t u

theorem lastObs_eq_getLast? (l : List Cell) (c : Option ℚ) :
    lastObs l c = ((l.filterMap id).getLast?).or c := by
  induction l generalizing c with
  | nil => rfl
  | cons x t ih =>
    cases x with
    | none =>
      rw [lastObs, List.filterMap_cons]
      exact ih c
    | some v =>
      rw [lastObs, ih (some v)]
      have hfm : List.filterMap id (some v :: t) = v :: t.filterMap id := rfl
      rw [hfm]
      rcases ht : (t.filterMap id) with _ | ⟨y, ys⟩
      · simp
      · rw [List.getLast?_cons_cons]
        rcases hy : (y :: ys).getLast? with _ | z
        · simp at hy
        · rfl

theorem reverse_take_sub {α : Type} (l : List α) (i : ℕ) (h : i ≤ l.length) :
    l.reverse.take (l.length - i) = (l.drop i).reverse := by
  have h2 := reverse_take_reverse l (l.length - i)
  rw [Nat.sub_sub_self h] at h2
  rw [← h2, List.reverse_reverse]

theorem getElem?_bfill (l : List Cell) (i : ℕ) (h : i < l.length) :
    (bfill l)[i]? = some (lastObs ((l.drop i).reverse) none) := by
  unfold bfill
  rw [List.getElem?_reverse (by rw [length_ffillCol, List.length_reverse]; exact h)]
  rw [length_ffillCol, List.length_reverse]
  rw [getElem?_ffillCol _ _ _ (by rw [List.length_reverse]; omega)]
  have hidx : l.length - 1 - i + 1 = l.length - i := by omega
  rw [hidx, reverse_take_sub l i (le_of_lt h)]

theorem getElem?_lt_length {α : Type} {l : List α} {i : ℕ} {a : α} (h : l[i]? = some a) :
    i < l.length := by
  by_contra h2
  rw [List.getElem?_eq_none (by omega)] at h
  cases h

theorem bfill_keeps_some (l : List Cell) (i : ℕ) (v : ℚ) (h : l[i]? = some (some v)) :
    (bfill l)[i]? = some (some v) := by
  have hi : i < l.length := getElem?_lt_length h
  rw [getElem?_bfill l i hi]
  have hdrop : l.drop i = some v :: l.drop (i + 1) := by
    rw [List.drop_eq_getElem_cons hi]
    have hv : l[i] = some v := by
      have h2 := List.getElem?_eq_getElem hi
      rw [h2] at h
      exact Option.some.inj h
    rw [hv]
  rw [hdrop, List.reverse_cons, lastObs_append]
  rfl

theorem take_mem_some (col : List Cell) (j i : ℕ) (v : ℚ) (hj : col[j]? = some (some v))
    (hji : j < i) : some v ∈ col.take i := by
  apply List.mem_iff_getElem?.mpr
  refine ⟨j, ?_⟩
  rw [List.getElem?_take_of_lt hji]
  exact hj

theorem ffill_isSome_from (col : List Cell) (j i : ℕ) (v : ℚ)
    (hj : col[j]? = some (some v)) (hij : j ≤ i) (hi : i < col.length) :
    ∃ w, (ffill col)[i]? = some (some w) := by
  rw [ffill, getElem?_ffillCol col none i hi]
  have hmem : some v ∈ col.take (i + 1) := take_mem_some col j (i + 1) v hj (by omega)
  obtain ⟨w, hw⟩ := Option.isSome_iff_exists.mp (lastObs_isSome_of_mem (col.take (i + 1)) none v hmem)
  exact ⟨w, by rw [hw]⟩

theorem alignFill_all_defined (col : List Cell) (j : ℕ) (v : ℚ)
    (hj : col[j]? = some (some v)) :
    ∀ i, i < col.length → ∃ q, (alignFill col)[i]? = some (some q) := by
  intro i hi
  have hjlen : j < col.length := getElem?_lt_length hj
  have hex : ∃ w k, i ≤ k ∧ (ffill col)[k]? = some (some w) := by
    rcases le_or_lt i j with hij | hji
    · obtain ⟨w, hw⟩ := ffill_isSome_from col j j v hj (le_refl j) hjlen
      exact ⟨w, j, hij, hw⟩
    · obtain ⟨w, hw⟩ := ffill_isSome_from col j i v hj (le_of_lt hji) hi
      exact ⟨w, i, le_refl i, hw⟩
  obtain ⟨w, k, hik, hw⟩ := hex
  rw [alignFill, getElem?_bfill (ffill col) i (by rw [length_ffill]; exact hi)]
  have hmem : some w ∈ ((ffill col).drop i).reverse := by
    rw [List.mem_reverse]
    apply List.mem_iff_getElem?.mpr
    refine ⟨k - i, ?_⟩
    rw [List.getElem?_drop, Nat.add_sub_cancel' hik]
    exact hw
  obtain ⟨q, hq⟩ :=
    Option.isSome_iff_exists.mp (lastObs_isSome_of_mem (((ffill col).drop i).reverse) none w hmem)
  exact ⟨q, by rw [hq]⟩

theorem alignFill_most_recent (col : List Cell) (i : ℕ) (v : ℚ)
    (hnone : col[i]? = some none)
    (hprev : ((col.take i).filterMap id).getLast? = some v) :
    (alignFill col)[i]? = some (some v) := by
  have hi : i < col.length := getElem?_lt_length hnone
  have h1 : lastObs (col.take (i + 1)) none = lastObs (col.take i) none := by
    rw [List.take_succ, hnone, lastObs_append]
    rfl
  have hys : (ffill col)[i]? = some (some v) := by
    rw [ffill, getElem?_ffillCol col none i hi, h1, lastObs_eq_getLast?, hprev]
    rfl
  exact bfill_keeps_some (ffill col) i v hys

/-- C4: for a non-empty family of raw series, every column that survives the
drop of entirely-empty columns is, after forward-fill and back-fill, defined
at every date of the union index; and every entry that was undefined but has
an earlier defined value in its column receives the most recent such value. -/
theorem C4_fill_closure (raw : List (List (ℕ × ℚ))) (hraw : raw ≠ []) (col : List Cell)
    (hc : col ∈ dropEmptyCols (raw.map (projectCol (unionIndex raw)))) :
    (∀ i, i < (unionIndex raw).length → ∃ q, (alignFill col)[i]? = some (some q)) ∧
    (∀ i v, col[i]? = some none → ((col.take i).filterMap id).getLast? = some v →
      (alignFill col)[i]? = some (some v)) := by
  have hmem := List.mem_filter.mp hc
  obtain ⟨x, hxmem, hxsome⟩ := List.any_eq_true.mp hmem.2
  obtain ⟨v, hv⟩ := Option.isSome_iff_exists.mp hxsome
  subst hv
  obtain ⟨j, hj⟩ := List.getElem?_of_mem hxmem
  have hlen : col.length = (unionIndex raw).length := by
    obtain ⟨s, hs, hps⟩ := List.mem_map.mp hmem.1
    rw [← hps]
    simp [projectCol]
  constructor
  · intro i hi
    exact alignFill_all_defined col j v hj i (by omega)
  · intro i v2 h1 h2
    exact alignFill_most_recent col i v2 h1 h2

/-- Witness for C4: two raw series with union index `[0, 1, 2]`; the first
series misses date 1 and the filled column carries date 0's value there. -/
theorem C4_fill_closure_witness :
    ([[(0, (1 : ℚ)), (2, 5)], [(1, 7)]] ≠ ([] : List (List (ℕ × ℚ)))) ∧
    ([some (1 : ℚ), none, some 5] ∈
      dropEmptyCols ([[(0, (1 : ℚ)), (2, 5)], [(1, 7)]].map
        (projectCol (unionIndex [[(0, (1 : ℚ)), (2, 5)], [(1, 7)]])))) ∧
    (alignFill [some (1 : ℚ), none, some 5])[1]? = some (some 1) :=
  ⟨by decide, by decide,
    (C4_fill_closure [[(0, (1 : ℚ)), (2, 5)], [(1, 7)]] (by decide)
      [some (1 : ℚ), none, some 5] (by decide)).2 1 1 (by decide) (by decide)⟩

theorem sorted_head_le (f : ℕ) (v0 : ℚ) (rest : List (ℕ × ℚ))
    (hs : List.Sorted (· ≤ ·) (((f, v0) :: rest).map Prod.fst)) :
    ∀ p ∈ (f, v0) :: rest, f ≤ p.1 := by
  intro p hp
  rcases List.mem_cons.mp hp with h | h
  · rw [h]
  · have hmem : p.1 ∈ rest.map Prod.fst := List.mem_map_of_mem Prod.fst h
    rw [List.map_cons] at hs
    exact (List.sorted_cons.mp hs).1 p.1 hmem

theorem reindexFfillVal_isSome (f : ℕ) (v0 : ℚ) (rest : List (ℕ × ℚ)) (d : ℕ) (hfd : f ≤ d) :
    (reindexFfillVal ((f, v0) :: rest) d).isSome := by
  have hmem : (f, v0) ∈ ((f, v0) :: rest).filter (fun p => decide (p.1 ≤ d)) := by
    rw [List.mem_filter]
    exact ⟨List.mem_cons_self _ _, by simpa using hfd⟩
  have hne := List.ne_nil_of_mem hmem
  obtain ⟨p, hp⟩ := Option.isSome_iff_exists.mp (List.getLast?_isSome.mpr hne)
  unfold reindexFfillVal
  rw [hp]
  rfl

theorem reindexFfillVal_none (f : ℕ) (v0 : ℚ) (rest : List (ℕ × ℚ))
    (hs : List.Sorted (· ≤ ·) (((f, v0) :: rest).map Prod.fst)) (d : ℕ) (hdf : d < f) :
    reindexFfillVal ((f, v0) :: rest) d = none := by
  have h0 : ((f, v0) :: rest).filter (fun p => decide (p.1 ≤ d)) = [] := by
    apply List.filter_eq_nil_iff.mpr
    intro p hp
    have h1 := sorted_head_le f v0 rest hs p hp
    simp only [decide_eq_true_eq]
    omega
  unfold reindexFfillVal
  rw [h0]
  rfl

/-- C2 counterexample: panel index `[0, 1, 2]`, auxiliary series observed only
at date 1 with value 3. The Reconciler's reindex (line 287) leaves date 0
undefined, but the generic forward/back-fill of lines 302-304 (the Calendar
Aligner's fill, applied again to the whole frame) back-fills it to 3 — the
claim that this fill "is not reapplied to the auxiliary column", leaving
pre-first-observation dates undefined, is false. -/
theorem C2_counterexample :
    (reindexCol [0, 1, 2] [(1, (3 : ℚ))])[0]? = some none ∧
    (alignFill (reindexCol [0, 1, 2] [(1, (3 : ℚ))]))[0]? = some (some 3) ∧
    alignFill (reindexCol [0, 1, 2] [(1, (3 : ℚ))]) ≠ reindexCol [0, 1, 2] [(1, (3 : ℚ))] ∧
    reindexCol [0, 2] [(1, (3 : ℚ))] = [none, some 3] ∧
    (downloadGoldTrainingData [("A", [(0, (1 : ℚ)), (2, 1)])] [(1, 3)]).map
      (fun out => lookupCol out.columns "China_10Y_Treasury_Yield") =
      some (some [some 3, some 3]) := by
  decide

/-- C2 amended: after the Reconciler reindexes the auxiliary series onto the
panel index with forward fill, every panel date on or after the series' first
observed date carries the most recent auxiliary value (a defined cell), and
every panel date strictly before the first observation is undefined in the
Reconciler's own output; however the generic forward/back-fill is subsequently
reapplied to the auxiliary column (lines 302-304), after which every cell of
the column is defined whenever some panel date reaches the first observation. -/
theorem C2_reindex_ffill (idx : List ℕ) (f : ℕ) (v0 : ℚ) (rest : List (ℕ × ℚ))
    (hs : List.Sorted (· ≤ ·) (((f, v0) :: rest).map Prod.fst)) :
    (∀ (j d : ℕ), idx[j]? = some d → f ≤ d →
      (reindexCol idx ((f, v0) :: rest))[j]? = some (reindexFfillVal ((f, v0) :: rest) d) ∧
      (reindexFfillVal ((f, v0) :: rest) d).isSome) ∧
    (∀ (j d : ℕ), idx[j]? = some d → d < f →
      (reindexCol idx ((f, v0) :: rest))[j]? = some none) ∧
    (∀ (j0 d0 : ℕ), idx[j0]? = some d0 → f ≤ d0 →
      ∀ i, i < idx.length →
        ∃ q, (alignFill (reindexCol idx ((f, v0) :: rest)))[i]? = some (some q)) := by
  refine ⟨?_, ?_, ?_⟩
  · intro j d hj hfd
    constructor
    · unfold reindexCol
      rw [List.getElem?_map, hj]
      rfl
    · exact reindexFfillVal_isSome f v0 rest d hfd
  · intro j d hj hdf
    unfold reindexCol
    rw [List.getElem?_map, hj, Option.map_some', reindexFfillVal_none f v0 rest hs d hdf]
  · intro j0 d0 hj0 hfd0 i hi
    obtain ⟨q0, hq0⟩ :=
      Option.isSome_iff_exists.mp (reindexFfillVal_isSome f v0 rest d0 hfd0)
    have hcol : (reindexCol idx ((f, v0) :: rest))[j0]? = some (some q0) := by
      unfold reindexCol
      rw [List.getElem?_map, hj0, Option.map_some', hq0]
    apply alignFill_all_defined (reindexCol idx ((f, v0) :: rest)) j0 q0 hcol i
    unfold reindexCol
    rw [List.length_map]
    exact hi

/-- Witness for the amended C2 at index `[0, 1, 2]` and series `[(1, 3), (2, 4)]`. -/
theorem C2_reindex_ffill_witness :
    (reindexCol [0, 1, 2] [(1, (3 : ℚ)), (2, 4)])[0]? = some none ∧
    (reindexCol [0, 1, 2] [(1, (3 : ℚ)), (2, 4)])[2]? =
      some (reindexFfillVal [(1, (3 : ℚ)), (2, 4)] 2) ∧
    ∃ q, (alignFill (reindexCol [0, 1, 2] [(1, (3 : ℚ)), (2, 4)]))[0]? = some (some q) :=
  ⟨((C2_reindex_ffill [0, 1, 2] 1 3 [(2, 4)] (by decide)).2.1) 0 0 (by decide) (by decide),
    ((C2_reindex_ffill [0, 1, 2] 1 3 [(2, 4)] (by decide)).1 2 2 (by decide) (by decide)).1,
    ((C2_reindex_ffill [0, 1, 2] 1 3 [(2, 4)] (by decide)).2.2) 1 1 (by decide) (by decide)
      0 (by decide)⟩

/-- C5: when every auxiliary observation post-dates the panel's maximum date,
the clip is empty, the daily-resampled re-clip is still empty, and the
Reconciler falls back to a constant column with every value equal to the
documented default 2.5, setting the warning flag; no cell is undefined. -/
theorem C5_default_fallback (idx : List ℕ) (aux : List (ℕ × ℚ)) (lo hi : ℕ)
    (hlo : idx.min? = some lo) (hhi : idx.max? = some hi)
    (hpost : ∀ p ∈ aux, hi < p.1) :
    clipTo aux lo hi = [] ∧
    clipTo (resampleDailyFfill aux) lo hi = [] ∧
    reconcileAux idx aux = (idx.map (fun _ => some defaultYield), true) ∧
    ∀ x ∈ (reconcileAux idx aux).1, x = some defaultYield := by
  have h1 : clipTo aux lo hi = [] := by
    apply List.filter_eq_nil_iff.mpr
    intro p hp
    have h2 := hpost p hp
    simp only [Bool.and_eq_true, decide_eq_true_eq, not_and]
    intro _
    omega
  have h2 : clipTo (resampleDailyFfill aux) lo hi = [] := by
    apply List.filter_eq_nil_iff.mpr
    intro p hp
    rcases aux with _ | ⟨a, t⟩
    · simp [resampleDailyFfill] at hp
    · have ha := hpost a (List.mem_cons_self a t)
      unfold resampleDailyFfill at hp
      obtain ⟨k, hk, hpk⟩ := List.mem_map.mp hp
      simp only [Bool.and_eq_true, decide_eq_true_eq, not_and]
      intro _
      rw [← hpk]
      simp only
      omega
  have h3 : reconcileAux idx aux = (idx.map (fun _ => some defaultYield), true) := by
    unfold reconcileAux
    rw [hlo, hhi]
    simp [h1, h2]
  refine ⟨h1, h2, h3, ?_⟩
  intro x hx
  rw [h3] at hx
  obtain ⟨d, _, hd⟩ := List.mem_map.mp hx
  exact hd.symm

/-- Witness for C5: panel index `[0, 1]`, auxiliary series observed at date 5. -/
theorem C5_default_fallback_witness :
    ([0, 1] : List ℕ).min? = some 0 ∧ ([0, 1] : List ℕ).max? = some 1 ∧
    reconcileAux [0, 1] [(5, (9 : ℚ))] = ([some defaultYield, some defaultYield], true) :=
  ⟨by decide, by decide,
    (C5_default_fallback [0, 1] [(5, (9 : ℚ))] 0 1 (by decide) (by decide) (by decide)).2.2.1⟩

/-- C6: if both the spot and near-month-future columns are present, the basis
column is appended and equals their elementwise difference at every index;
if either is absent, the panel is unchanged and the warning flag is set. -/
theorem C6_basis (panel : List (String × List Cell)) :
    (∀ s f, lookupCol panel "GOLD_spot_price" = some s →
      lookupCol panel "GOLD_near_month_future" = some f →
      addBasis panel = (panel ++ [("GOLD_basis_spot_vs_near", List.zipWith cellSub s f)], false) ∧
      ∀ (i : ℕ), (List.zipWith cellSub s f)[i]? =
        (match s[i]?, f[i]? with
          | some a, some b => some (cellSub a b)
          | _, _ => none)) ∧
    ((lookupCol panel "GOLD_spot_price" = none ∨
      lookupCol panel "GOLD_near_month_future" = none) →
      addBasis panel = (panel, true)) := by
  constructor
  · intro s f hs hf
    constructor
    · unfold addBasis
      rw [hs, hf]
    · intro i
      rw [List.getElem?_zipWith]
      rcases s[i]? with _ | a <;> rcases f[i]? with _ | b <;> rfl
  · intro h
    unfold addBasis
    rcases h with h | h
    · rcases h2 : lookupCol panel "GOLD_near_month_future" with _ | f <;> rw [h]
    · rcases h1 : lookupCol panel "GOLD_spot_price" with _ | s2 <;> rw [h]

/-- Witness for C6 on a two-column panel with one date. -/
theorem C6_basis_witness :
    lookupCol [("GOLD_spot_price", [some (10 : ℚ)]), ("GOLD_near_month_future", [some (9 : ℚ)])]
      "GOLD_spot_price" = some [some (10 : ℚ)] ∧
    addBasis [("GOLD_spot_price", [some (10 : ℚ)]), ("GOLD_near_month_future", [some (9 : ℚ)])] =
      ([("GOLD_spot_price", [some (10 : ℚ)]), ("GOLD_near_month_future", [some (9 : ℚ)])] ++
        [("GOLD_basis_spot_vs_near", List.zipWith cellSub [some (10 : ℚ)] [some (9 : ℚ)])],
        false) :=
  ⟨by decide,
    ((C6_basis [("GOLD_spot_price", [some (10 : ℚ)]), ("GOLD_near_month_future", [some (9 : ℚ)])]).1
      [some (10 : ℚ)] [some (9 : ℚ)] (by decide) (by decide)).1⟩

theorem sorted_getLast?_max (l : List ℕ) (x : ℕ) (hs : List.Sorted (· ≤ ·) l)
    (hl : l.getLast? = some x) : ∀ y ∈ l, y ≤ x := by
  induction l with
  | nil => simp at hl
  | cons a t ih =>
    rcases t with _ | ⟨b, t2⟩
    · intro y hy
      rcases List.mem_singleton.mp hy with rfl
      simp only [List.getLast?_singleton, Option.some.injEq] at hl
      omega
    · rw [List.getLast?_cons_cons] at hl
      have hs2 := List.sorted_cons.mp hs
      have ih2 := ih hs2.2 hl
      intro y hy
      rcases List.mem_cons.mp hy with rfl | hy2
      · exact hs2.1 x (List.mem_of_getLast?_eq_some hl)
      · exact ih2 y hy2

/-- C3 counterexample: a buffett table whose rows are in descending date order
`[(2, …7), (1, …5)]`. The loading step does not sort, and the Snapshot group is
built from the physically last row, so it is tagged with date 1 and value 5
even though the table's maximum date is 2, where the value is 7. -/
theorem C3_counterexample :
    extractBuffett [(2, [("巴菲特指标", (7 : ℚ))]), (1, [("巴菲特指标", 5)])] =
      some (mkBuffettGroup 1 [("巴菲特指标", 5)]) ∧
    (mkBuffettGroup 1 [("巴菲特指标", (5 : ℚ))]).date = 1 ∧
    (mkBuffettGroup 1 [("巴菲特指标", (5 : ℚ))]).indicator_value = some 5 ∧
    (∀ y ∈ tableDates [(2, [("巴菲特指标", (7 : ℚ))]), (1, [("巴菲特指标", 5)])], y ≤ 2) ∧
    2 ∈ tableDates [(2, [("巴菲特指标", (7 : ℚ))]), (1, [("巴菲特指标", 5)])] ∧
    rowLookup [("巴菲特指标", (7 : ℚ))] "巴菲特指标" = some 7 ∧
    (1 : ℕ) ≠ 2 := by
  decide

/-- C3 amended: the Snapshot contains each auxiliary table's values at its
physically last row, tagged with that row's date; the loading step does not
sort, so this is the table's maximum date exactly when the rows are already in
ascending date order (and it may still differ from the Panel's maximum date). -/
theorem C3_snapshot_last_row (t : Table) (d : ℕ) (row : Row)
    (hlast : t.getLast? = some (d, row))
    (hs : List.Sorted (· ≤ ·) (tableDates t)) :
    extractBuffett t = some (mkBuffettGroup d row) ∧
    extractSpread t = some (mkSpreadGroup d row) ∧
    d ∈ tableDates t ∧
    ∀ y ∈ tableDates t, y ≤ d := by
  have h1 : extractBuffett t = some (mkBuffettGroup d row) := by
    unfold extractBuffett
    rw [hlast]
    rfl
  have h2 : extractSpread t = some (mkSpreadGroup d row) := by
    unfold extractSpread
    rw [hlast]
    rfl
  have hmem : (d, row) ∈ t := List.mem_of_getLast?_eq_some hlast
  have hlast2 : (tableDates t).getLast? = some d := by
    unfold tableDates
    rw [List.getLast?_map, hlast]
    rfl
  exact ⟨h1, h2, List.mem_map_of_mem Prod.fst hmem,
    sorted_getLast?_max (tableDates t) d hs hlast2⟩

/-- Witness for the amended C3 on an ascending two-row spread table. -/
theorem C3_snapshot_last_row_witness :
    extractSpread [(1, [("股债利差", (1 : ℚ))]), (2, [("股债利差", 2)])] =
      some (mkSpreadGroup 2 [("股债利差", (2 : ℚ))]) ∧
    ∀ y ∈ tableDates [(1, [("股债利差", (1 : ℚ))]), (2, [("股债利差", 2)])], y ≤ 2 :=
  ⟨(C3_snapshot_last_row [(1, [("股债利差", (1 : ℚ))]), (2, [("股债利差", 2)])] 2
      [("股债利差", (2 : ℚ))] (by decide) (by decide)).2.1,
    (C3_snapshot_last_row [(1, [("股债利差", (1 : ℚ))]), (2, [("股债利差", 2)])] 2
      [("股债利差", (2 : ℚ))] (by decide) (by decide)).2.2.2⟩

/-- C7: every named field of a group is always present — each equals the
`rowLookup` of its source column, extraction is total on any non-empty table,
and a column absent from the row maps to an explicit null. -/
theorem C7_null_fields (t : Table) (d : ℕ) (row : Row)
    (hlast : t.getLast? = some (d, row)) :
    (extractBuffett t = some (mkBuffettGroup d row) ∧
      extractSpread t = some (mkSpreadGroup d row)) ∧
    ((mkBuffettGroup d row).indicator_value = rowLookup row "巴菲特指标" ∧
      (mkBuffettGroup d row).total_market_cap = rowLookup row "总市值" ∧
      (mkBuffettGroup d row).gdp = rowLookup row "GDP" ∧
      (mkBuffettGroup d row).total_percentile = rowLookup row "总历史分位数" ∧
      (mkBuffettGroup d row).close_price = rowLookup row "收盘价" ∧
      (mkSpreadGroup d row).spread_value = rowLookup row "股债利差" ∧
      (mkSpreadGroup d row).five_year_ma = rowLookup row "5年均线" ∧
      (mkSpreadGroup d row).five_year_std = rowLookup row "5年标准差" ∧
      (mkSpreadGroup d row).plus_1_std = rowLookup row "+1 STD" ∧
      (mkSpreadGroup d row).minus_1_std = rowLookup row "-1 STD" ∧
      (mkSpreadGroup d row).plus_2_std = rowLookup row "+2 STD" ∧
      (mkSpreadGroup d row).minus_2_std = rowLookup row "-2 STD" ∧
      (mkSpreadGroup d row).csi300_index = rowLookup row "沪深300指数") ∧
    (∀ name : String, name ∉ row.map Prod.fst → rowLookup row name = none) := by
  refine ⟨⟨?_, ?_⟩, ⟨rfl, rfl, rfl, rfl, rfl, rfl, rfl, rfl, rfl, rfl, rfl, rfl, rfl⟩, ?_⟩
  · unfold extractBuffett
    rw [hlast]
    rfl
  · unfold extractSpread
    rw [hlast]
    rfl
  · intro name hname
    unfold rowLookup
    have h0 : row.find? (fun p => p.1 == name) = none := by
      apply List.find?_eq_none.mpr
      intro p hp
      simp only [beq_iff_eq]
      intro heq
      exact hname (heq ▸ List.mem_map_of_mem Prod.fst hp)
    rw [h0]
    rfl

/-- Witness for C7 on a one-row table missing the indicator column. -/
theorem C7_null_fields_witness :
    extractBuffett [(5, [("GDP", (3 : ℚ))])] = some (mkBuffettGroup 5 [("GDP", (3 : ℚ))]) ∧
    ("巴菲特指标" ∉ ([("GDP", (3 : ℚ))] : Row).map Prod.fst) ∧
    rowLookup [("GDP", (3 : ℚ))] "巴菲特指标" = none ∧
    (mkBuffettGroup 5 [("GDP", (3 : ℚ))]).gdp = some 3 :=
  ⟨(C7_null_fields [(5, [("GDP", (3 : ℚ))])] 5 [("GDP", (3 : ℚ))] (by decide)).1.1,
    by decide,
    (C7_null_fields [(5, [("GDP", (3 : ℚ))])] 5 [("GDP", (3 : ℚ))] (by decide)).2.2
      "巴菲特指标" (by decide),
    by decide⟩

/-- C8: the pipeline aborts, producing nothing, exactly when the union of all
raw series is empty; and the full run (download plus snapshot) produces no
output exactly under the same condition — no other condition aborts. -/
theorem C8_nodata_abort (raw : List (String × List (ℕ × ℚ))) (aux : List (ℕ × ℚ))
    (bt sp : Option Table) :
    (downloadGoldTrainingData raw aux = none ↔ unionIndex (raw.map Prod.snd) = []) ∧
    (runMarketAnalysis raw aux bt sp = none ↔ unionIndex (raw.map Prod.snd) = []) := by
  have hiff : downloadGoldTrainingData raw aux = none ↔ unionIndex (raw.map Prod.snd) = [] := by
    constructor
    · intro h
      by_contra hne
      unfold downloadGoldTrainingData at h
      rw [if_neg (by simpa using hne)] at h
      simp at h
    · intro h
      unfold downloadGoldTrainingData
      rw [if_pos (by simpa using h)]
  refine ⟨hiff, ?_, ?_⟩
  · intro h
    by_contra hne
    obtain ⟨out, hout⟩ := Option.ne_none_iff_exists'.mp (fun hh => hne (hiff.mp hh))
    have hidx : out.index = unionIndex (raw.map Prod.snd) := by
      unfold downloadGoldTrainingData at hout
      rw [if_neg (by simpa using hne)] at hout
      have h2 := Option.some.inj hout
      rw [← h2]
    obtain ⟨d, hd⟩ : ∃ d, out.index.getLast? = some d := by
      rw [hidx]
      exact Option.isSome_iff_exists.mp (List.getLast?_isSome.mpr hne)
    have hsnap : prepareMarketData out.columns out.index bt sp =
        some { latest_date := d
               latest_values :=
                 (out.columns.map (fun col => (col.1, (col.2.getLast?).join))).filter
                   (fun kv => !(strEndsWith kv.1 "_pct_change"))
               buffett_indicator := bt.bind extractBuffett
               equity_bond_spread := sp.bind extractSpread } := by
      unfold prepareMarketData
      rw [hd]
    have hrun : runMarketAnalysis raw aux bt sp ≠ none := by
      unfold runMarketAnalysis
      rw [hout]
      show (match prepareMarketData out.columns out.index bt sp with
            | none => none
            | some snap => some (out, snap)) ≠ none
      rw [hsnap]
      simp
    exact hrun h
  · intro h
    unfold runMarketAnalysis
    rw [hiff.mpr h]

/-- Witness for C8: empty input aborts; a one-series input does not. -/
theorem C8_nodata_abort_witness :
    downloadGoldTrainingData [] [] = none ∧
    downloadGoldTrainingData [("A", [(0, (1 : ℚ))])] [] ≠ none :=
  ⟨(C8_nodata_abort [] [] none none).1.mpr rfl,
    fun h => absurd ((C8_nodata_abort [("A", [(0, (1 : ℚ))])] [] none none).1.mp h) (by decide)⟩

end AStockPe
